import Mathlib

/-!
Verification of the asset-selection and synchronization pipeline of
`icloud-shared-album-sync` (`sync.py`), as a shallow embedding in Lean 4.

Modelling conventions:
* Python strings are `String`; Python `None`-able values are `Option _`.
* JSON numeric fields are modelled as `Option Int` (the repository reads
  them with `_get_int`, which yields an `int` or `0`).
* Python truthiness: `None` and `""` and `0` are falsy; the `or`-chains of
  the source are modelled by explicit fallback functions below.
* The destination directory is a finite association list from file name to
  file content; `os` calls become operations on that list.
* Network effects are modelled by explicit response records supplied as
  inputs (a `none` response stands for a raised `requests.RequestException`).
-/

/-! ## Python string primitives -/

/-- Python `str.startswith` on character lists: `listStartsWith hay pre`
is true when `pre` is an initial segment of `hay`. -/
def listStartsWith : List Char → List Char → Bool
  | _, [] => true
  | [], _ :: _ => false
  | c :: cs, d :: ds => c == d && listStartsWith cs ds

/-- Python substring containment `needle in hay` on character lists. -/
def listContainsSeq : List Char → List Char → Bool
  | [], needle => needle.isEmpty
  | c :: cs, needle => listStartsWith (c :: cs) needle || listContainsSeq cs needle

/-- Python `needle in hay` for strings. -/
def strContains (hay needle : String) : Bool :=
  listContainsSeq hay.data needle.data

/-- Python `str.startswith`. -/
def strStartsWith (s pre : String) : Bool :=
  listStartsWith s.data pre.data

/-- Python `str.endswith`. -/
def strEndsWith (s suf : String) : Bool :=
  listStartsWith s.data.reverse suf.data.reverse

/-- Python `str.lower()` (ASCII; `Char.toLower` only maps `A`-`Z`). -/
def strLower (s : String) : String :=
  String.mk (s.data.map Char.toLower)

/-- Python `str.split(c)` for a one-character separator. -/
def splitOnChar (c : Char) : List Char → List (List Char)
  | [] => [[]]
  | d :: ds =>
      match splitOnChar c ds with
      | [] => [[]]
      | g :: gs => if d == c then [] :: g :: gs else (d :: g) :: gs

/-- Python whitespace set used by `str.strip()` (space, tab, LF, CR, VT, FF). -/
def isPyWs (c : Char) : Bool :=
  c == ' ' || c == '\t' || c == '\n' || c == '\r' || c.toNat == 11 || c.toNat == 12

/-- Python `str.strip()` with no arguments. -/
def pyStrip (s : String) : String :=
  String.mk (((s.data.dropWhile isPyWs).reverse.dropWhile isPyWs).reverse)

/-- Python `str.strip('\x22')`: remove all leading/trailing double quotes. -/
def stripQuotes (s : String) : String :=
  String.mk (((s.data.dropWhile (· == '"')).reverse.dropWhile (· == '"')).reverse)

/-- `os.path.basename`: the part after the last slash (POSIX). -/
def basename (s : String) : String :=
  String.mk ((splitOnChar '/' s.data).getLastD [])

/-- `url.split('?')[0]`: the part before the first question mark. -/
def stripQuery (s : String) : String :=
  String.mk ((splitOnChar '?' s.data).headD [])

/-- Python `int(s)` restricted to optionally signed decimal digit strings
(after stripping whitespace); any other shape raises, modelled as `none`. -/
def pyInt? (s : String) : Option Int :=
  let t := (pyStrip s).data
  let core : List Char → Option Int := fun ds =>
    if ds ≠ [] ∧ ds.all (·.isDigit) then
      some (Int.ofNat (ds.foldl (fun n c => n * 10 + (c.toNat - '0'.toNat)) 0))
    else none
  match t with
  | '-' :: rest => (core rest).map (fun n => -n)
  | '+' :: rest => core rest
  | _ => core t

/-- Python `a or b` for two optional strings followed by `or ""`:
the first truthy (non-`None`, non-empty) string, else `""`. -/
def pyOr2S (a b : Option String) : String :=
  match a with
  | some s => if s = "" then b.getD "" else s
  | none => b.getD ""

/-- `_get_int(a or b)` for two optional ints: the first truthy (nonzero)
value; `_get_int` of a falsy result (`None` or `0`) is `0`. -/
def getIntOr2 (a b : Option Int) : Int :=
  match a with
  | some x => if x = 0 then b.getD 0 else x
  | none => b.getD 0

/-! ## Selection constants (sync.py lines 17-18, 66-72) -/

/-- `MIN_LONG_EDGE = 2000` -/
def MIN_LONG_EDGE : Int := 2000

/-- `MIN_FILESIZE_BYTES = 300 * 1024` -/
def MIN_FILESIZE_BYTES : Int := 300 * 1024

/-- `THUMB_HINTS` -/
def THUMB_HINTS : List String :=
  ["thumb", "thumbnail", "square", "poster", "preview", "small", "mini", "tile", "low", "tiny"]

/-- `VIDEO_EXTS` -/
def VIDEO_EXTS : List String := [".mp4", ".mov", ".m4v", ".hevc"]

/-- `PREFERRED_ORIGINAL_KEYS` -/
def PREFERRED_ORIGINAL_KEYS : List String :=
  ["resoriginal", "original", "resjpegfull", "fullres", "master", "resfull", "publicsharegenericlarge"]

/-! ## Derivative Selector (sync.py lines 74-168) -/

/-- `_is_thumbish_name`: `(name or "").lower()` contains some thumb hint.
(`name or ""` only matters for `None`, which we model as the caller passing
the resolved string already, so the argument here is the string itself.) -/
def IsThumbishName (name : String) : Bool :=
  THUMB_HINTS.any (fun h => strContains (strLower name) h)

/-- `_full_url(location, path)` -/
def FullUrl (location : Option String) (path : String) : String :=
  if strStartsWith path "http://" || strStartsWith path "https://" then path
  else
    match location with
    | some loc =>
        if loc = "" then path
        else "https://" ++ loc ++ (if strStartsWith path "/" then path else "/" ++ path)
    | none => path

/-- Leading decimal digits of a character list, and the remainder. -/
def takeDigits : List Char → List Char × List Char
  | [] => ([], [])
  | c :: cs =>
      if c.isDigit then
        let (d, r) := takeDigits cs
        (c :: d, r)
      else ([], c :: cs)

/-- One attempt of the regex `(\d+)[xX](\d+)` anchored at the head of the list:
a maximal nonempty digit run, an `x` or `X`, then a nonempty digit run. -/
def dimMatchAt (cs : List Char) : Option (List Char × List Char) :=
  let (d1, r1) := takeDigits cs
  if d1 = [] then none
  else
    match r1 with
    | x :: r2 =>
        if x == 'x' || x == 'X' then
          let (d2, _) := takeDigits r2
          if d2 = [] then none else some (d1, d2)
        else none
    | [] => none

/-- `re.search` for `(\d+)[xX](\d+)`: leftmost match wins. -/
def dimSearch : List Char → Option (List Char × List Char)
  | [] => none
  | c :: cs =>
      match dimMatchAt (c :: cs) with
      | some r => some r
      | none => dimSearch cs

/-- Numeric value of a digit run (what `int(m.group(i))` yields). -/
def digitsVal (ds : List Char) : Int :=
  Int.ofNat (ds.foldl (fun n c => n * 10 + (c.toNat - '0'.toNat)) 0)

/-- `_dimensions_from_key` -/
def DimensionsFromKey (key : String) : Int × Int :=
  match dimSearch key.data with
  | some (d1, d2) => (digitsVal d1, digitsVal d2)
  | none => (0, 0)

/-- One derivative's JSON object (`v` in `_candidate_from_derivative`),
restricted to the keys the source reads. String-valued keys are
`Option String`, numeric keys `Option Int`. -/
structure Deriv where
  url : Option String := none
  urlU : Option String := none
  fileName : Option String := none
  filename : Option String := none
  derivativeType : Option String := none
  typ : Option String := none
  width : Option Int := none
  wU : Option Int := none
  height : Option Int := none
  hU : Option Int := none
  fileSize : Option Int := none
  size : Option Int := none
deriving DecidableEq

/-- A selection candidate (the dict built at sync.py line 120). -/
structure Candidate where
  url : String
  w : Int
  h : Int
  key : String
  size : Int
deriving DecidableEq

/-- `_candidate_from_derivative(k, v, location)` -/
def CandidateFromDerivative (k : String) (v : Deriv) (location : Option String) :
    Option Candidate :=
  let u := pyOr2S v.url v.urlU
  if u = "" then none
  else
    let urlFull := FullUrl location u
    let fname := pyOr2S v.fileName v.filename
    let dtype := pyOr2S v.derivativeType v.typ
    if IsThumbishName k || IsThumbishName fname || IsThumbishName dtype ||
        IsThumbishName urlFull then none
    else
      let w0 := getIntOr2 v.width v.wU
      let h0 := getIntOr2 v.height v.hU
      let wh :=
        if w0 ≠ 0 ∧ h0 ≠ 0 then (w0, h0)
        else
          let kd := DimensionsFromKey k
          if kd.1 ≠ 0 ∧ kd.2 ≠ 0 then kd else (w0, h0)
      let sz := getIntOr2 v.fileSize v.size
      some { url := urlFull, w := wh.1, h := wh.2, key := k, size := sz }

/-- `any(c["url"].lower().endswith(ext) for ext in VIDEO_EXTS)` -/
def isVideoUrl (u : String) : Bool :=
  VIDEO_EXTS.any (fun e => strEndsWith (strLower u) e)

/-- `_meets_fullsize_floor(c)` -/
def MeetsFullsizeFloor (c : Candidate) : Bool :=
  let longEdge := max c.w c.h
  let size := c.size
  if isVideoUrl c.url then size == 0 || decide (MIN_FILESIZE_BYTES ≤ size)
  else if longEdge < MIN_LONG_EDGE then false
  else if size ≠ 0 ∧ size < MIN_FILESIZE_BYTES then false
  else true

/-- One asset descriptor (the dict passed to `pick_best_download_url_from_asset`),
restricted to the keys the source reads. The `derivatives` mapping is the
dict's items in iteration (insertion) order. -/
structure Asset where
  url_location : Option String := none
  url_path : Option String := none
  derivatives : List (String × Deriv) := []
deriving DecidableEq

/-- The candidate list built at sync.py lines 140-146. -/
def candidatesOf (asset : Asset) : List Candidate :=
  asset.derivatives.filterMap (fun kv => CandidateFromDerivative kv.1 kv.2 asset.url_location)

/-- Selection step 1 (sync.py lines 148-152): first preferred-original key,
in preference-list priority order, whose candidate meets the floor. -/
def step1Preferred (cands : List Candidate) : Option String :=
  PREFERRED_ORIGINAL_KEYS.findSome? (fun pref =>
    (cands.find? (fun c =>
        c.key != "" && strLower c.key == pref && MeetsFullsizeFloor c)).map Candidate.url)

/-- The sort key of step 2: `(w*h, size)`. -/
def candKey (c : Candidate) : Int × Int := (c.w * c.h, c.size)

/-- Python tuple comparison `p > q` (lexicographic, strict). -/
def pyGt (p q : Int × Int) : Bool :=
  decide (q.1 < p.1) || (decide (p.1 = q.1) && decide (q.2 < p.2))

/-- Python `max(l, key=...)`: first element with the lexicographically
largest key (later elements replace the current best only when strictly
greater). `none` on the empty list (where Python raises). -/
def pyMaxCand : List Candidate → Option Candidate
  | [] => none
  | x :: xs => some (xs.foldl (fun b c => if pyGt (candKey c) (candKey b) then c else b) x)

/-- `pick_best_download_url_from_asset(asset)` -/
def PickBestDownloadUrlFromAsset (asset : Asset) : Option String :=
  let cands := candidatesOf asset
  match step1Preferred cands with
  | some u => some u
  | none =>
      let fullsizeOk := cands.filter (fun c => MeetsFullsizeFloor c)
      match pyMaxCand fullsizeOk with
      | some best => some best.url
      | none =>
          match asset.url_path with
          | some p =>
              if p != "" && !IsThumbishName p then some (FullUrl asset.url_location p)
              else none
          | none => none

/-! ## Destination directory model -/

/-- A provenance ledger entry (the JSON object at sync.py lines 288-292). -/
structure LedgerEntry where
  filename : String
  downloaded_at : String
  url : String
deriving DecidableEq

/-- Content of one directory entry: a regular file of some byte length, a
JSON array file (the ledger), or a subdirectory. -/
inductive FileContent where
  | bytes (size : Nat)
  | json (entries : List LedgerEntry)
  | subdir
deriving DecidableEq

/-- `true` for regular files (anything `os.path.isfile` accepts). -/
def FileContent.isFileC : FileContent → Bool
  | .bytes _ => true
  | .json _ => true
  | .subdir => false

/-- A destination directory: an association list from name to content.
Names are unique by construction of the operations below. -/
abbrev Dir := List (String × FileContent)

/-- Look a name up in the directory. -/
def lookupF (dir : Dir) (name : String) : Option FileContent :=
  (dir.find? (fun e => e.1 == name)).map (·.2)

/-- `os.remove` / overwrite preparation: drop a name from the directory. -/
def removeF (dir : Dir) (name : String) : Dir :=
  dir.filter (fun e => e.1 != name)

/-- Create or overwrite the file `name` with content `c`. -/
def setF (dir : Dir) (name : String) (c : FileContent) : Dir :=
  removeF dir name ++ [(name, c)]

/-! ## Fetch & Validator (sync.py lines 224-303) -/

/-- The HEAD probe's response (when no `requests.RequestException` is raised). -/
structure HeadResp where
  ok : Bool
  contentLength : Option String
deriving DecidableEq

/-- The GET response, when `requests.get` + `raise_for_status` succeed.
`bodyLen` is the number of body bytes streamed before either completion or
(`streamFails = true`) a mid-stream `requests` exception. -/
structure GetResp where
  contentDisposition : String := ""
  bodyLen : Nat := 0
  streamFails : Bool := false
deriving DecidableEq

/-- All external effects one `download_file` call observes: the two network
responses (`none` = raised `requests.RequestException`), whether the ledger
read-modify-write I/O succeeds, and the current UTC time string. -/
structure DlWorld where
  head : Option HeadResp := none
  get : Option GetResp := none
  ledgerOk : Bool := true
  now : String := ""
deriving DecidableEq

/-- `_content_length(resp)`: `int(headers.get("Content-Length", "0"))`,
`0` when parsing raises. -/
def ContentLength (cl : Option String) : Int :=
  (pyInt? (cl.getD "0")).getD 0

/-- The pre-flight gate (sync.py lines 235-244): `true` exactly when the
HEAD succeeded, was `ok`, and declared a truthy (nonzero) length below
`MIN_FILESIZE_BYTES`. -/
def headRejects (head : Option HeadResp) : Bool :=
  match head with
  | none => false
  | some h =>
      h.ok && (let cl := ContentLength h.contentLength
               cl != 0 && decide (cl < MIN_FILESIZE_BYTES))

/-- One attempt of the regex `filename\*?=([^;]+)` anchored at the head:
literal `filename`, optional `*`, `=`, then a nonempty run of non-`;`
characters (greedy). Returns the capture group. -/
def dispMatchAt (cs : List Char) : Option (List Char) :=
  if listStartsWith cs "filename".data then
    match cs.drop 8 with
    | '*' :: '=' :: r =>
        let cap := r.takeWhile (· != ';')
        if cap = [] then none else some cap
    | '=' :: r =>
        let cap := r.takeWhile (· != ';')
        if cap = [] then none else some cap
    | _ => none
  else none

/-- `re.search(r'filename\*?=([^;]+)', cd)`: leftmost match wins. -/
def dispSearch : List Char → Option (List Char)
  | [] => none
  | c :: cs =>
      match dispMatchAt (c :: cs) with
      | some r => some r
      | none => dispSearch cs

/-- Filename derivation (sync.py lines 249-255): the Content-Disposition
capture (stripped of whitespace and quotes, then `basename`), else the
URL basename with the query string stripped. -/
def deriveFilename (url : String) (cd : String) : String :=
  match dispSearch cd.data with
  | some raw => basename (stripQuotes (pyStrip (String.mk raw)))
  | none => basename (stripQuery url)

/-- `os.path.basename(url.split('?')[0])` — the name sync_album records
(sync.py line 396). -/
def urlBasename (url : String) : String :=
  basename (stripQuery url)

/-- Ledger read (sync.py lines 284-287): `[]` when the file is absent, its
entries when it holds a JSON array, `none` when `json.load` raises. -/
def readLedger (dir : Dir) (f : String) : Option (List LedgerEntry) :=
  match lookupF dir f with
  | none => some []
  | some (.json es) => some es
  | some _ => none

/-- Ledger update (sync.py lines 281-297): on any I/O or parse failure the
exception is swallowed and the directory is left as is. -/
def ledgerPhase (url fn : String) (dir : Dir) (ifn : Option String) (w : DlWorld) : Dir :=
  match ifn with
  | none => dir
  | some f =>
      if w.ledgerOk then
        match readLedger dir f with
        | some old =>
            setF dir f (.json ({ filename := fn, downloaded_at := w.now ++ "Z", url := url } :: old))
        | none => dir
      else dir

/-- The directory after the streamed body has been atomically promoted
(`open(tmp_path) ... os.replace(tmp_path, path)`, sync.py lines 260-277). -/
def fetchedDir (url : String) (dir : Dir) (g : GetResp) : Dir :=
  let fn := deriveFilename url g.contentDisposition
  let tmp := fn ++ ".part"
  setF (removeF (setF dir tmp (.bytes g.bodyLen)) tmp) fn (.bytes g.bodyLen)

/-- The GET phase of `download_file` (sync.py lines 246-299): everything
after the pre-flight gate. -/
def getPhase (url : String) (dir : Dir) (ifn : Option String) (w : DlWorld) : Bool × Dir :=
  match w.get with
  | none => (false, dir)
  | some g =>
      let fn := deriveFilename url g.contentDisposition
      let tmp := fn ++ ".part"
      let dirTmp := setF dir tmp (.bytes g.bodyLen)
      if g.streamFails then (false, dirTmp)
      else if (g.bodyLen : Int) < MIN_FILESIZE_BYTES then (false, removeF dirTmp tmp)
      else (true, ledgerPhase url fn (fetchedDir url dir g) ifn w)

/-- `download_file(url, dest_dir, index_filename, timeout)`: returns the
success flag and the directory afterwards. -/
def DownloadFile (url : String) (dir : Dir) (ifn : Option String) (w : DlWorld) : Bool × Dir :=
  if headRejects w.head then (false, dir)
  else getPhase url dir ifn w

/-! ## Retention Manager (sync.py lines 305-329) -/

/-- One directory entry as `prune_files` sees it: a name and its mtime
(seconds since the epoch, as an integer). -/
structure FileEnt where
  name : String
  mtime : Int
deriving DecidableEq

/-- The mtime-descending comparison used by `files.sort(key=..., reverse=True)`
(stable: CPython keeps the original order of equal keys). -/
def mtimeDesc (a b : FileEnt) : Bool := decide (b.mtime ≤ a.mtime)

/-- `prune_files(dest_dir, keep_days, max_files)`: `none` models a missing
directory (`FileNotFoundError` on `listdir` returns immediately). The
result is the set of surviving entries (returned in mtime-descending
order; a directory is order-insensitive). `now` models `datetime.now()`
in epoch seconds; `timedelta(days=keep_days)` is `keep_days * 86400`. -/
def PruneFiles (dir : Option (List FileEnt)) (keepDays maxFiles : Int) (now : Int) :
    Option (List FileEnt) :=
  match dir with
  | none => none
  | some files =>
      let sorted := files.mergeSort mtimeDesc
      let afterAge :=
        if 0 < keepDays then
          sorted.filter (fun f => !decide (f.mtime < now - keepDays * 86400))
        else sorted
      let sorted2 := afterAge.mergeSort mtimeDesc
      some (if 0 < maxFiles ∧ maxFiles < (sorted2.length : Int) then
              sorted2.take maxFiles.toNat
            else sorted2)

/-! ## Mirror Reconciler and the sync_album tail (sync.py lines 331-342, 393-406) -/

/-- `os.listdir` names that are regular files (`os.path.isfile`). -/
def onDiskFiles (dir : Dir) : List String :=
  (dir.filter (fun e => e.2.isFileC)).map (·.1)

/-- `mirror_missing_files(dest_dir, current_filenames)`: every listed name
absent from the keep-set is passed to `os.remove`; removing a regular file
succeeds, removing a subdirectory raises and is logged and skipped. -/
def MirrorMissingFiles (dir : Dir) (current : List String) : Dir :=
  dir.filter
    (fun e => current.contains e.1 || !e.2.isFileC)

/-- The mirroring tail of `sync_album` (sync.py lines 401-406): when
mirroring is on, reconcile against the downloaded names, or against the
current on-disk listing when nothing was downloaded this round. -/
def syncMirrorStep (mirrorMissing : Bool) (dir : Dir) (downloaded : List String) : Dir :=
  if mirrorMissing then
    MirrorMissingFiles dir (if downloaded.isEmpty then onDiskFiles dir else downloaded)
  else dir

/-- The download loop of `sync_album` (sync.py lines 393-397): each URL is
fetched against the evolving directory; on success the *URL-derived*
basename is appended to the round's downloaded-filenames list. `world`
supplies each URL's observed effects. -/
def syncDownloadPhase (world : String → DlWorld) (ifn : Option String)
    (urls : List String) (start : Dir × List String) : Dir × List String :=
  urls.foldl
    (fun acc url =>
      let r := DownloadFile url acc.1 ifn (world url)
      (r.2, if r.1 then acc.2 ++ [urlBasename url] else acc.2))
    start

/-! ## Comparison order of step 2, as a proposition -/

/-- Lexicographic `≤` on `(area, size)` keys (the order maximized by
`max(..., key=lambda x: (x["w"] * x["h"], x["size"]))`). -/
abbrev lexLe (p q : Int × Int) : Prop :=
  p.1 < q.1 ∨ (p.1 = q.1 ∧ p.2 ≤ q.2)

/-! ## Concrete inputs used by witnesses and counterexamples -/

/-- A 300x300 thumbnail derivative whose URL coincides with the asset's
base path. -/
def thumbCexDeriv : Deriv :=
  { url := some "/a.jpg", width := some 300, height := some 300 }

/-- An asset whose only derivative is thumbnail-keyed, with the same URL
as the asset's `url_path`. -/
def thumbCexAsset : Asset :=
  { url_path := some "/a.jpg", derivatives := [("thumb300", thumbCexDeriv)] }

/-- A thumbnail-hinted derivative with large declared dimensions. -/
def previewDeriv : Deriv :=
  { url := some "/x.jpg", width := some 5000, height := some 5000, fileSize := some 999999 }

/-- Asset with a floor-qualifying preferred original, a thumbnail, and a
larger-area non-preferred candidate. -/
def prefWitnessAsset : Asset :=
  { derivatives :=
      [("thumb_300x300",
          { url := some "https://h/a.jpg", width := some 300, height := some 300 }),
       ("reshuge",
          { url := some "https://h/c.jpg", width := some 8000, height := some 6000,
            fileSize := some 9000000 }),
       ("resoriginal",
          { url := some "https://h/b.jpg", width := some 4032, height := some 3024,
            fileSize := some 2000000 })] }

/-- Asset with two qualifying non-preferred candidates: 4000x3000 at 1MB
and 4032x3024 at 500KB. -/
def areaWitnessAsset : Asset :=
  { derivatives :=
      [("res4000",
          { url := some "https://h/a.jpg", width := some 4000, height := some 3000,
            fileSize := some 1000000 }),
       ("res4032",
          { url := some "https://h/b.jpg", width := some 4032, height := some 3024,
            fileSize := some 500000 })] }

/-- A world whose GET streams a 100-byte body (undersized). -/
def undersizedWorld : DlWorld :=
  { head := none, get := some { contentDisposition := "", bodyLen := 100 },
    ledgerOk := true, now := "T" }

/-- A directory that already holds a large file named `a.jpg`. -/
def dirWithA : Dir := [("a.jpg", .bytes 999999)]

/-- A world whose HEAD probe succeeds and declares `Content-Length: 0`. -/
def zeroLenWorld : DlWorld :=
  { head := some { ok := true, contentLength := some "0" },
    get := some { contentDisposition := "", bodyLen := 400000 },
    ledgerOk := true, now := "T" }

/-- A world whose HEAD probe succeeds and declares 1000 bytes. -/
def smallHeadWorld : DlWorld :=
  { head := some { ok := true, contentLength := some "1000" },
    get := some { contentDisposition := "", bodyLen := 400000 },
    ledgerOk := true, now := "T" }

/-- A world whose HEAD probe raises and whose GET delivers 500000 bytes. -/
def bigBodyWorld : DlWorld :=
  { head := none, get := some { contentDisposition := "", bodyLen := 500000 },
    ledgerOk := true, now := "T1" }

/-- A pre-existing ledger entry. -/
def oldEntry : LedgerEntry :=
  { filename := "old.jpg", downloaded_at := "T0Z", url := "https://h/old.jpg" }

/-- A directory holding a ledger with one prior entry. -/
def dirWithLedger : Dir := [("index.json", .json [oldEntry])]

/-- A world whose GET carries a Content-Disposition filename different from
the URL basename. -/
def dispWorld : DlWorld :=
  { head := none,
    get := some { contentDisposition := "attachment; filename=\"other.heic\"",
                  bodyLen := 400000 },
    ledgerOk := true, now := "T" }

/-- The per-URL world of the mirroring witness run. -/
def dispWorldFun : String → DlWorld := fun _ => dispWorld

/-- Start directory of the mirroring witness run: just the ledger file. -/
def dirIdxOnly : Dir := [("index.json", .json [])]

/-- The ledger entry the mirroring witness run writes. -/
def dispEntry : LedgerEntry :=
  { filename := "other.heic", downloaded_at := "TZ", url := "https://h/a.jpg?tok=1" }

/-- Directory after the mirroring witness run's download phase. -/
def dirAfterDisp : Dir :=
  [("other.heic", .bytes 400000), ("index.json", .json [dispEntry])]

/-- Six files with distinct mtimes, for the retention witness. -/
def sixFiles : List FileEnt :=
  [{ name := "a", mtime := 5 }, { name := "b", mtime := 1 }, { name := "c", mtime := 9 },
   { name := "d", mtime := 3 }, { name := "e", mtime := 7 }, { name := "f", mtime := 2 }]

/-! ## Helper lemmas -/

theorem lexLe_refl (p : Int × Int) : lexLe p p := by
  rcases p with ⟨a, b⟩
  simp [lexLe]

theorem lexLe_trans {p q r : Int × Int} (h1 : lexLe p q) (h2 : lexLe q r) : lexLe p r := by
  rcases p with ⟨a, b⟩; rcases q with ⟨c, d⟩; rcases r with ⟨e, f⟩
  simp only [lexLe] at *
  omega

theorem lexLe_of_pyGt {p q : Int × Int} (h : pyGt p q = true) : lexLe q p := by
  rcases p with ⟨a, b⟩; rcases q with ⟨c, d⟩
  simp only [pyGt, lexLe, Bool.or_eq_true, Bool.and_eq_true, decide_eq_true_eq] at *
  omega

theorem lexLe_of_not_pyGt {p q : Int × Int} (h : pyGt p q = false) : lexLe p q := by
  rcases p with ⟨a, b⟩; rcases q with ⟨c, d⟩
  simp only [pyGt, lexLe, Bool.or_eq_false_iff, Bool.and_eq_false_iff,
    decide_eq_false_iff_not, decide_eq_true_eq] at *
  omega

/-- The fold inside `pyMaxCand` returns a list member whose key dominates
every member's key. -/
theorem foldMax_spec (xs : List Candidate) : ∀ x : Candidate,
    (xs.foldl (fun b c => if pyGt (candKey c) (candKey b) then c else b) x) ∈ x :: xs ∧
    ∀ y ∈ x :: xs,
      lexLe (candKey y)
        (candKey (xs.foldl (fun b c => if pyGt (candKey c) (candKey b) then c else b) x)) := by
  induction xs with
  | nil =>
      intro x
      exact ⟨List.mem_singleton.mpr rfl, by
        intro y hy
        rw [List.mem_singleton] at hy
        subst hy
        exact lexLe_refl _⟩
  | cons c cs ih =>
      intro x
      simp only [List.foldl_cons]
      obtain ⟨ihmem, ihle⟩ := ih (if pyGt (candKey c) (candKey x) then c else x)
      constructor
      · rcases List.mem_cons.mp ihmem with h | h
        · rw [h]
          by_cases hgt : pyGt (candKey c) (candKey x) = true
          · simp only [if_pos hgt]
            exact List.mem_cons_of_mem _ (List.mem_cons_self _ _)
          · simp only [if_neg hgt]
            exact List.mem_cons_self _ _
        · exact List.mem_cons_of_mem _ (List.mem_cons_of_mem _ h)
      · intro y hy
        have hstep : lexLe (candKey y) (candKey (if pyGt (candKey c) (candKey x) then c else x)) →
            lexLe (candKey y)
              (candKey (cs.foldl (fun b c => if pyGt (candKey c) (candKey b) then c else b)
                (if pyGt (candKey c) (candKey x) then c else x))) := by
          intro h
          exact lexLe_trans h (ihle _ (List.mem_cons_self _ _))
        rcases List.mem_cons.mp hy with h | h
        · subst h
          apply hstep
          by_cases hgt : pyGt (candKey c) (candKey y) = true
          · simp only [if_pos hgt]
            exact lexLe_of_pyGt hgt
          · simp only [if_neg hgt]
            exact lexLe_refl _
        · rcases List.mem_cons.mp h with h2 | h2
          · subst h2
            apply hstep
            by_cases hgt : pyGt (candKey y) (candKey x) = true
            · simp only [if_pos hgt]
              exact lexLe_refl _
            · simp only [if_neg hgt]
              exact lexLe_of_not_pyGt (Bool.of_not_eq_true hgt)
          · exact ihle y (List.mem_cons_of_mem _ h2)

/-- `pyMaxCand` of a nonempty list is a member whose key dominates all keys. -/
theorem pyMaxCand_spec (x : Candidate) (xs : List Candidate) :
    ∃ r, pyMaxCand (x :: xs) = some r ∧ r ∈ x :: xs ∧
      ∀ y ∈ x :: xs, lexLe (candKey y) (candKey r) := by
  obtain ⟨hmem, hle⟩ := foldMax_spec xs x
  exact ⟨_, rfl, hmem, hle⟩

/-- `lookupF` on a cons cell. -/
theorem lookupF_cons (e : String × FileContent) (es : Dir) (m : String) :
    lookupF (e :: es) m = if e.1 = m then some e.2 else lookupF es m := by
  by_cases h : e.1 = m
  · simp [lookupF, List.find?_cons_of_pos, h]
  · simp [lookupF, List.find?_cons_of_neg, h]

/-- `removeF` on a cons cell. -/
theorem removeF_cons (e : String × FileContent) (es : Dir) (n : String) :
    removeF (e :: es) n = if e.1 = n then removeF es n else e :: removeF es n := by
  by_cases h : e.1 = n
  · simp [removeF, List.filter_cons, h]
  · simp [removeF, List.filter_cons, h]

/-- `lookupF` after `removeF`. -/
theorem lookupF_removeF (dir : Dir) (n m : String) :
    lookupF (removeF dir n) m = if m = n then none else lookupF dir m := by
  induction dir with
  | nil => simp [removeF, lookupF]
  | cons e es ih =>
      rw [removeF_cons]
      by_cases he : e.1 = n
      · rw [if_pos he, ih]
        by_cases hm : m = n
        · simp [hm]
        · rw [if_neg hm, if_neg hm, lookupF_cons,
            if_neg (fun h : e.1 = m => hm (h ▸ he ▸ rfl))]
      · rw [if_neg he, lookupF_cons, ih, lookupF_cons]
        split_ifs with h1 h2 h3
        · exact absurd (h1.trans h2) he
        · rfl
        · rfl
        · rfl

/-- `lookupF` after appending a single entry. -/
theorem lookupF_append_single (l : Dir) (n m : String) (c : FileContent) :
    lookupF (l ++ [(n, c)]) m = (lookupF l m).or (if n = m then some c else none) := by
  induction l with
  | nil =>
      rw [List.nil_append, lookupF_cons]
      by_cases h : n = m <;> simp [h, lookupF]
  | cons e es ih =>
      rw [List.cons_append, lookupF_cons, lookupF_cons, ih]
      by_cases h : e.1 = m <;> simp [h]

/-- `lookupF` after `setF`. -/
theorem lookupF_setF (dir : Dir) (n m : String) (c : FileContent) :
    lookupF (setF dir n c) m = if m = n then some c else lookupF dir m := by
  rw [setF, lookupF_append_single, lookupF_removeF]
  by_cases hm : m = n
  · simp [hm]
  · rw [if_neg hm, if_neg hm, if_neg (fun h : n = m => hm h.symm), Option.or_none]

/-- Appending the `.part` suffix always changes the name. -/
theorem part_suffix_ne (s : String) : s ++ ".part" ≠ s := by
  intro h
  have h2 := congrArg String.length h
  rw [String.length_append] at h2
  have h5 : (".part" : String).length = 5 := rfl
  omega

/-- The success flag of `download_file` does not depend on the directory's
prior contents. -/
theorem downloadFile_fst_indep (url : String) (ifn : Option String) (w : DlWorld)
    (d d' : Dir) : (DownloadFile url d ifn w).1 = (DownloadFile url d' ifn w).1 := by
  unfold DownloadFile getPhase
  by_cases hh : headRejects w.head = true
  · simp [hh]
  · simp only [Bool.not_eq_true] at hh
    cases w.get with
    | none => simp [hh]
    | some g =>
        simp only [hh, if_false]
        by_cases hs : g.streamFails = true
        · simp [hs]
        · simp only [Bool.not_eq_true] at hs
          by_cases hl : (g.bodyLen : Int) < MIN_FILESIZE_BYTES
          · simp [hs, hl]
          · simp [hs, hl]

/-- Every name the download loop appends is the URL-derived basename of one
of the round's URLs. -/
theorem syncDownloadPhase_names (world : String → DlWorld) (ifn : Option String)
    (urls : List String) : ∀ start : Dir × List String,
    ∀ n ∈ (syncDownloadPhase world ifn urls start).2,
      n ∈ start.2 ∨ ∃ u ∈ urls, n = urlBasename u := by
  induction urls with
  | nil =>
      intro start n hn
      exact Or.inl hn
  | cons u us ih =>
      intro start n hn
      simp only [syncDownloadPhase, List.foldl_cons] at hn
      rcases ih _ n hn with h | ⟨u', hu', he⟩
      · by_cases hok : (DownloadFile u start.1 ifn (world u)).1 = true
        · simp only [hok, if_true] at h
          rcases List.mem_append.mp h with h2 | h2
          · exact Or.inl h2
          · exact Or.inr ⟨u, List.mem_cons_self _ _, List.mem_singleton.mp h2⟩
        · simp only [Bool.not_eq_true] at hok
          simp only [hok, Bool.false_eq_true, if_false] at h
          exact Or.inl h
      · exact Or.inr ⟨u', List.mem_cons_of_mem _ hu', he⟩

/-! ## C2: mirroring after a zero-download round leaves the directory unchanged -/

/-- C2: in a sync round with mirroring enabled and zero successful
downloads, the reconciler is invoked with the current on-disk listing as
the keep-set, and consequently the directory (in particular every regular
file in it) is unchanged by the reconciliation step. -/
theorem C2_mirror_zero_downloads_preserves (dir : Dir) :
    syncMirrorStep true dir [] = MirrorMissingFiles dir (onDiskFiles dir) ∧
    syncMirrorStep true dir [] = dir := by
  constructor
  · simp [syncMirrorStep]
  · simp only [syncMirrorStep, List.isEmpty_nil, if_true, if_pos rfl]
    rw [MirrorMissingFiles, List.filter_eq_self]
    intro e he
    by_cases hf : e.2.isFileC = true
    · have : e.1 ∈ onDiskFiles dir := by
        rw [onDiskFiles]
        exact List.mem_map.mpr ⟨e, List.mem_filter.mpr ⟨he, hf⟩, rfl⟩
      simp only [Bool.or_eq_true, List.contains_iff_exists_mem_beq]
      exact Or.inl ⟨e.1, this, by simp⟩
    · simp only [Bool.not_eq_true] at hf
      simp [hf]

/-! ## C5: characterization of the full-size floor -/

/-- C5: a candidate accepted by the full-size floor satisfies exactly: for
a video URL (recognized extension), byte size unknown (0) or at least the
minimum byte threshold; otherwise, long edge at least the minimum long
edge and byte size unknown (0) or at least the minimum byte threshold. -/
theorem C5_floor_characterization (c : Candidate) :
    MeetsFullsizeFloor c = true ↔
      (if isVideoUrl c.url then c.size = 0 ∨ MIN_FILESIZE_BYTES ≤ c.size
       else MIN_LONG_EDGE ≤ max c.w c.h ∧ (c.size = 0 ∨ MIN_FILESIZE_BYTES ≤ c.size)) := by
  by_cases hv : isVideoUrl c.url = true
  · simp only [MeetsFullsizeFloor, hv, if_true, Bool.or_eq_true, beq_iff_eq,
      decide_eq_true_eq]
  · simp only [Bool.not_eq_true] at hv
    simp only [MeetsFullsizeFloor, hv, Bool.false_eq_true, if_false]
    split_ifs with h1 h2
    · simp only [Bool.false_eq_true, false_iff]
      intro ⟨h3, _⟩
      omega
    · simp only [Bool.false_eq_true, false_iff]
      intro ⟨_, h3⟩
      omega
    · simp only [true_iff]
      constructor
      · omega
      · by_cases hz : c.size = 0
        · exact Or.inl hz
        · exact Or.inr (by
            rcases not_and_or.mp h2 with h | h
            · exact absurd hz (by simpa using h)
            · omega)

/-! ## C1: thumbnail-hinted derivatives and the Selector -/

/-- C1 counterexample: `thumbCexAsset`'s only derivative is keyed
`thumb300` (a thumbnail hint) with declared 300x300, and its resolved URL
is `/a.jpg`; yet the Selector returns exactly that URL, because the asset's
`url_path` fallback resolves to the same string and is not itself
thumbnail-like. So the claim "the Selector never returns that derivative's
URL" is false as stated. -/
theorem C1_counterexample :
    IsThumbishName "thumb300" = true ∧
    thumbCexAsset.derivatives = [("thumb300", thumbCexDeriv)] ∧
    FullUrl thumbCexAsset.url_location (pyOr2S thumbCexDeriv.url thumbCexDeriv.urlU) =
      "/a.jpg" ∧
    PickBestDownloadUrlFromAsset thumbCexAsset = some "/a.jpg" := by
  refine ⟨by decide, rfl, by decide, by decide⟩

/-- C1 (amended): a derivative whose key, filename hint, declared type, or
resolved URL contains a thumbnail-hint substring never yields a Candidate,
so the candidate-based selection steps (preferred keys, largest area) can
never select it; only the separate `url_path` fallback can produce an
equal URL string. -/
theorem C1_thumbish_never_candidate (k : String) (v : Deriv) (loc : Option String)
    (h : IsThumbishName k = true ∨
         IsThumbishName (pyOr2S v.fileName v.filename) = true ∨
         IsThumbishName (pyOr2S v.derivativeType v.typ) = true ∨
         IsThumbishName (FullUrl loc (pyOr2S v.url v.urlU)) = true) :
    CandidateFromDerivative k v loc = none := by
  unfold CandidateFromDerivative
  by_cases hu : pyOr2S v.url v.urlU = ""
  · simp [hu]
  · have hth : (IsThumbishName k || IsThumbishName (pyOr2S v.fileName v.filename) ||
        IsThumbishName (pyOr2S v.derivativeType v.typ) ||
        IsThumbishName (FullUrl loc (pyOr2S v.url v.urlU))) = true := by
      rcases h with h | h | h | h <;> simp [h]
    simp only [hu, if_false, if_neg hu]
    simp [hth]

/-- Witness for C1's amended theorem: the `previewDeriv` derivative has a
thumbnail-hinted key and large declared dimensions, and yields no
Candidate. -/
theorem C1_thumbish_never_candidate_witness :
    IsThumbishName "previewDeriv" = true ∧
    CandidateFromDerivative "previewDeriv" previewDeriv none = none :=
  ⟨by decide, C1_thumbish_never_candidate "previewDeriv" previewDeriv none
    (Or.inl (by decide))⟩

/-! ## C4: preferred originals beat area -/

/-- C4: whenever some candidate's key equals a preferred-original key name
(case-insensitively) and that candidate meets the full-size floor, the
Selector returns the URL of such a preferred floor-qualifying candidate —
regardless of any non-preferred candidate's larger pixel area. -/
theorem C4_preferred_beats_area (asset : Asset)
    (hex : ∃ c ∈ candidatesOf asset,
      strLower c.key ∈ PREFERRED_ORIGINAL_KEYS ∧ MeetsFullsizeFloor c = true) :
    ∃ c ∈ candidatesOf asset,
      strLower c.key ∈ PREFERRED_ORIGINAL_KEYS ∧ MeetsFullsizeFloor c = true ∧
      PickBestDownloadUrlFromAsset asset = some c.url := by
  obtain ⟨c, hc, hpref, hfloor⟩ := hex
  have hkey : (c.key != "") = true := by
    rw [bne_iff_ne]
    intro he
    rw [he] at hpref
    revert hpref
    decide
  have h1 : (step1Preferred (candidatesOf asset)).isSome := by
    rw [step1Preferred, List.findSome?_isSome_iff]
    refine ⟨strLower c.key, hpref, ?_⟩
    rw [Option.isSome_map']
    rw [List.find?_isSome]
    exact ⟨c, hc, by rw [hkey, hfloor]; simp⟩
  obtain ⟨u, hu⟩ := Option.isSome_iff_exists.mp h1
  rw [step1Preferred] at hu
  obtain ⟨pref, hprefmem, hf⟩ := List.exists_of_findSome?_eq_some hu
  rw [Option.map_eq_some'] at hf
  obtain ⟨c', hfind, hurl⟩ := hf
  have hc'mem := List.mem_of_find?_eq_some hfind
  have hc'pred := List.find?_some hfind
  simp only [Bool.and_eq_true, beq_iff_eq] at hc'pred
  obtain ⟨⟨-, hlow⟩, hfl'⟩ := hc'pred
  refine ⟨c', hc'mem, hlow ▸ hprefmem, hfl', ?_⟩
  rw [PickBestDownloadUrlFromAsset]
  rw [show step1Preferred (candidatesOf asset) = some u from by
    rw [step1Preferred]; exact hu]
  rw [hurl]

/-- Witness for C4 at `prefWitnessAsset` (300x300 thumbnail, an 8000x6000
non-preferred candidate, and a 4032x3024 `resoriginal`): the hypothesis
holds and the Selector returns a preferred candidate's URL. -/
theorem C4_preferred_beats_area_witness :
    (∃ c ∈ candidatesOf prefWitnessAsset,
      strLower c.key ∈ PREFERRED_ORIGINAL_KEYS ∧ MeetsFullsizeFloor c = true) ∧
    (∃ c ∈ candidatesOf prefWitnessAsset,
      strLower c.key ∈ PREFERRED_ORIGINAL_KEYS ∧ MeetsFullsizeFloor c = true ∧
      PickBestDownloadUrlFromAsset prefWitnessAsset = some c.url) ∧
    PickBestDownloadUrlFromAsset prefWitnessAsset = some "https://h/b.jpg" :=
  have hex : ∃ c ∈ candidatesOf prefWitnessAsset,
      strLower c.key ∈ PREFERRED_ORIGINAL_KEYS ∧ MeetsFullsizeFloor c = true := by
    refine ⟨{ url := "https://h/b.jpg", w := 4032, h := 3024, key := "resoriginal",
              size := 2000000 }, ?_, ?_, ?_⟩ <;> decide
  ⟨hex, C4_preferred_beats_area prefWitnessAsset hex, by decide⟩

/-! ## C8: area first, size as tiebreak -/

/-- C8: when no preferred-original candidate qualifies but some candidate
meets the floor, the Selector returns the URL of a floor-qualifying
candidate whose `(width*height, byte_size)` key is lexicographically
maximal among all floor-qualifying candidates (area first, size only as
tiebreak). -/
theorem C8_largest_area_then_size (asset : Asset)
    (hnopref : ∀ c ∈ candidatesOf asset,
      strLower c.key ∈ PREFERRED_ORIGINAL_KEYS → MeetsFullsizeFloor c = false)
    (hsome : ∃ c ∈ candidatesOf asset, MeetsFullsizeFloor c = true) :
    ∃ c ∈ candidatesOf asset, MeetsFullsizeFloor c = true ∧
      PickBestDownloadUrlFromAsset asset = some c.url ∧
      ∀ c' ∈ candidatesOf asset, MeetsFullsizeFloor c' = true →
        lexLe (candKey c') (candKey c) := by
  have hstep1 : step1Preferred (candidatesOf asset) = none := by
    rw [step1Preferred, List.findSome?_eq_none_iff]
    intro pref hpref
    rw [Option.map_eq_none', List.find?_eq_none]
    intro c hc hpred
    simp only [Bool.and_eq_true, beq_iff_eq] at hpred
    obtain ⟨⟨-, hlow⟩, hfl⟩ := hpred
    rw [hnopref c hc (hlow ▸ hpref)] at hfl
    exact Bool.false_ne_true hfl
  obtain ⟨c0, hc0, hfl0⟩ := hsome
  have hmemf : c0 ∈ (candidatesOf asset).filter (fun c => MeetsFullsizeFloor c) :=
    List.mem_filter.mpr ⟨hc0, hfl0⟩
  obtain ⟨x, xs, hxe⟩ : ∃ x xs,
      (candidatesOf asset).filter (fun c => MeetsFullsizeFloor c) = x :: xs := by
    cases hl : (candidatesOf asset).filter (fun c => MeetsFullsizeFloor c) with
    | nil => rw [hl] at hmemf; exact absurd hmemf (List.not_mem_nil c0)
    | cons x xs => exact ⟨x, xs, rfl⟩
  obtain ⟨r, hr, hrmem, hrmax⟩ := pyMaxCand_spec x xs
  rw [← hxe] at hrmem hrmax
  obtain ⟨hrc, hrfl⟩ := List.mem_filter.mp hrmem
  refine ⟨r, hrc, hrfl, ?_, ?_⟩
  · rw [PickBestDownloadUrlFromAsset, hstep1]
    simp only
    rw [hxe, hr]
  · intro c' hc' hfl'
    exact hrmax c' (List.mem_filter.mpr ⟨hc', hfl'⟩)

/-- Witness for C8 at `areaWitnessAsset`: neither key is preferred, both
candidates qualify, and the Selector returns the 4032x3024 (500KB) URL
rather than the 4000x3000 (1MB) one — area beats the size tiebreak. -/
theorem C8_largest_area_then_size_witness :
    (∀ c ∈ candidatesOf areaWitnessAsset,
      strLower c.key ∈ PREFERRED_ORIGINAL_KEYS → MeetsFullsizeFloor c = false) ∧
    (∃ c ∈ candidatesOf areaWitnessAsset, MeetsFullsizeFloor c = true) ∧
    (∃ c ∈ candidatesOf areaWitnessAsset, MeetsFullsizeFloor c = true ∧
      PickBestDownloadUrlFromAsset areaWitnessAsset = some c.url ∧
      ∀ c' ∈ candidatesOf areaWitnessAsset, MeetsFullsizeFloor c' = true →
        lexLe (candKey c') (candKey c)) ∧
    PickBestDownloadUrlFromAsset areaWitnessAsset = some "https://h/b.jpg" :=
  have h1 : ∀ c ∈ candidatesOf areaWitnessAsset,
      strLower c.key ∈ PREFERRED_ORIGINAL_KEYS → MeetsFullsizeFloor c = false := by
    decide
  have h2 : ∃ c ∈ candidatesOf areaWitnessAsset, MeetsFullsizeFloor c = true := by
    refine ⟨{ url := "https://h/b.jpg", w := 4032, h := 3024, key := "res4032",
              size := 500000 }, ?_, ?_⟩ <;> decide
  ⟨h1, h2, C8_largest_area_then_size areaWitnessAsset h1 h2, by decide⟩

/-! ## C9: count-based pruning keeps the newest files -/

/-- C9: pruning any directory of files with `keep_days = 0` and
`max_files = N > 0` leaves exactly `min(N, M)` files, all drawn from the
original listing, and every survivor's mtime is at least every deleted
file's mtime (the survivors are the `N` most recently modified); a missing
directory is not an error and nothing is deleted. -/
theorem C9_prune_count (files : List FileEnt) (N now : Int) (hN : 0 < N) :
    PruneFiles none 0 N now = none ∧
    ∃ res, PruneFiles (some files) 0 N now = some res ∧
      res.length = min N.toNat files.length ∧
      (∀ s ∈ res, s ∈ files) ∧
      (∀ s ∈ res, ∀ d ∈ files, d ∉ res → d.mtime ≤ s.mtime) := by
  constructor
  · rfl
  · have htrans : ∀ a b c : FileEnt, mtimeDesc a b → mtimeDesc b c → mtimeDesc a c := by
      intro a b c h1 h2
      simp only [mtimeDesc, decide_eq_true_eq] at *
      omega
    have htotal : ∀ a b : FileEnt, mtimeDesc a b || mtimeDesc b a := by
      intro a b
      simp only [mtimeDesc, Bool.or_eq_true, decide_eq_true_eq]
      omega
    set L := (files.mergeSort mtimeDesc).mergeSort mtimeDesc with hL
    have hlen : L.length = files.length := by
      rw [hL, List.length_mergeSort, List.length_mergeSort]
    have hmemL : ∀ a : FileEnt, a ∈ L ↔ a ∈ files := by
      intro a
      rw [hL, List.mem_mergeSort, List.mem_mergeSort]
    have hsorted : L.Pairwise (fun a b => mtimeDesc a b = true) := by
      rw [hL]
      exact List.sorted_mergeSort htrans htotal _
    have hres : PruneFiles (some files) 0 N now =
        some (if 0 < N ∧ N < (L.length : Int) then L.take N.toNat else L) := by
      simp [PruneFiles, hL]
    by_cases hc : 0 < N ∧ N < (L.length : Int)
    · rw [if_pos hc] at hres
      refine ⟨L.take N.toNat, hres, ?_, ?_, ?_⟩
      · rw [List.length_take, hlen]
      · intro s hs
        exact (hmemL s).mp ((List.take_sublist _ _).subset hs)
      · intro s hs d hd hdnot
        have hdL : d ∈ L := (hmemL d).mpr hd
        have hsplit : L.take N.toNat ++ L.drop N.toNat = L := List.take_append_drop _ _
        have hddrop : d ∈ L.drop N.toNat := by
          rcases List.mem_append.mp (hsplit ▸ hdL) with h | h
          · exact absurd h hdnot
          · exact h
        have hpw := List.pairwise_append.mp (hsplit ▸ hsorted)
        have := hpw.2.2 s hs d hddrop
        simp only [mtimeDesc, decide_eq_true_eq] at this
        exact this
    · rw [if_neg hc] at hres
      refine ⟨L, hres, ?_, ?_, ?_⟩
      · have hle : (L.length : Int) ≤ N := by
          rcases not_and_or.mp hc with h | h
          · exact absurd hN h
          · omega
        rw [hlen] at hle ⊢
        omega
      · intro s hs
        exact (hmemL s).mp hs
      · intro s hs d hd hdnot
        exact absurd ((hmemL d).mpr hd) hdnot

/-- Witness for C9 at six files with distinct mtimes and `max_files = 3`. -/
theorem C9_prune_count_witness :
    (0 : Int) < 3 ∧
    (PruneFiles none 0 3 0 = none ∧
     ∃ res, PruneFiles (some sixFiles) 0 3 0 = some res ∧
       res.length = min (3 : Int).toNat sixFiles.length ∧
       (∀ s ∈ res, s ∈ sixFiles) ∧
       (∀ s ∈ res, ∀ d ∈ sixFiles, d ∉ res → d.mtime ≤ s.mtime)) :=
  ⟨by decide, C9_prune_count sixFiles 3 0 (by decide)⟩

/-- The ledger update never disturbs a name currently holding plain bytes
(reading the ledger from such a name fails, so nothing is written there). -/
theorem lookupF_ledgerPhase_bytes (url fn m : String) (D : Dir) (ifn : Option String)
    (w : DlWorld) (n : Nat) (h : lookupF D m = some (.bytes n)) :
    lookupF (ledgerPhase url fn D ifn w) m = some (.bytes n) := by
  cases ifn with
  | none => exact h
  | some f =>
      rw [ledgerPhase]
      by_cases hok : w.ledgerOk = true
      · simp only [hok, if_true]
        cases hread : readLedger D f with
        | none => exact h
        | some old =>
            have hmf : m ≠ f := by
              intro he
              rw [readLedger, ← he, h] at hread
              exact Option.noConfusion hread
            rw [lookupF_setF, if_neg hmf]
            exact h
      · simp only [Bool.not_eq_true] at hok
        simp only [hok, Bool.false_eq_true, if_false]
        exact h

/-! ## C3: the post-transfer gate -/

/-- C3: with a GET response in hand, (i) an undersized completed stream is
rejected, the final destination name is untouched, the temporary `.part`
file is removed (whenever the body was actually streamed), and re-running
the fetch on the resulting directory rejects again; (ii) a mid-stream
failure is rejected with the final name untouched; (iii) the content at
the final destination name changes only when the transferred byte count
meets the minimum byte threshold, in which case the fetch succeeded and
the name holds exactly the streamed bytes. -/
theorem C3_post_transfer_gate (url : String) (dir : Dir) (ifn : Option String)
    (w : DlWorld) (g : GetResp) (hg : w.get = some g) :
    ((g.bodyLen : Int) < MIN_FILESIZE_BYTES →
        (DownloadFile url dir ifn w).1 = false ∧
        lookupF (DownloadFile url dir ifn w).2 (deriveFilename url g.contentDisposition) =
          lookupF dir (deriveFilename url g.contentDisposition) ∧
        (headRejects w.head = false → g.streamFails = false →
          lookupF (DownloadFile url dir ifn w).2
            (deriveFilename url g.contentDisposition ++ ".part") = none) ∧
        (DownloadFile url (DownloadFile url dir ifn w).2 ifn w).1 = false) ∧
    (g.streamFails = true →
        (DownloadFile url dir ifn w).1 = false ∧
        lookupF (DownloadFile url dir ifn w).2 (deriveFilename url g.contentDisposition) =
          lookupF dir (deriveFilename url g.contentDisposition)) ∧
    (lookupF (DownloadFile url dir ifn w).2 (deriveFilename url g.contentDisposition) ≠
        lookupF dir (deriveFilename url g.contentDisposition) →
      MIN_FILESIZE_BYTES ≤ (g.bodyLen : Int) ∧
      (DownloadFile url dir ifn w).1 = true ∧
      lookupF (DownloadFile url dir ifn w).2 (deriveFilename url g.contentDisposition) =
        some (.bytes g.bodyLen)) := by
  set fn := deriveFilename url g.contentDisposition with hfn
  have hne : ¬ fn = fn ++ ".part" := fun h => part_suffix_ne fn h.symm
  by_cases hh : headRejects w.head = true
  · have hD : DownloadFile url dir ifn w = (false, dir) := by
      rw [DownloadFile, if_pos hh]
    refine ⟨fun _ => ⟨by rw [hD], by rw [hD], ?_, ?_⟩, fun _ => ⟨by rw [hD], by rw [hD]⟩, ?_⟩
    · intro hh2 _
      rw [hh] at hh2
      exact Bool.noConfusion hh2
    · rw [hD]
      rw [hD]
    · intro hch
      rw [hD] at hch
      exact absurd rfl hch
  · have hD0 : DownloadFile url dir ifn w = getPhase url dir ifn w := by
      rw [DownloadFile, if_neg hh]
    by_cases hs : g.streamFails = true
    · have hD : DownloadFile url dir ifn w =
          (false, setF dir (fn ++ ".part") (.bytes g.bodyLen)) := by
        rw [hD0, getPhase, hg]
        simp only [hs, if_true]
      have hlook : lookupF (setF dir (fn ++ ".part") (.bytes g.bodyLen)) fn = lookupF dir fn := by
        rw [lookupF_setF, if_neg hne]
      refine ⟨fun _ => ⟨by rw [hD], by rw [hD]; exact hlook, ?_, ?_⟩,
        fun _ => ⟨by rw [hD], by rw [hD]; exact hlook⟩, ?_⟩
      · intro _ hs2
        rw [hs] at hs2
        exact Bool.noConfusion hs2
      · rw [hD, downloadFile_fst_indep url ifn w _ dir, hD]
      · intro hch
        rw [hD] at hch
        exact absurd hlook hch
    · have hsf : g.streamFails = false := Bool.of_not_eq_true hs
      by_cases hlt : (g.bodyLen : Int) < MIN_FILESIZE_BYTES
      · have hD : DownloadFile url dir ifn w =
            (false, removeF (setF dir (fn ++ ".part") (.bytes g.bodyLen)) (fn ++ ".part")) := by
          rw [hD0, getPhase, hg]
          simp only [hsf, Bool.false_eq_true, if_false, hlt, if_true]
        have hlook : lookupF (removeF (setF dir (fn ++ ".part") (.bytes g.bodyLen))
            (fn ++ ".part")) fn = lookupF dir fn := by
          rw [lookupF_removeF, if_neg hne, lookupF_setF, if_neg hne]
        refine ⟨fun _ => ⟨by rw [hD], by rw [hD]; exact hlook, ?_, ?_⟩, ?_, ?_⟩
        · intro _ _
          rw [hD]
          simp only
          rw [lookupF_removeF, if_pos rfl]
        · rw [hD, downloadFile_fst_indep url ifn w _ dir, hD]
        · intro hs2
          rw [hsf] at hs2
          exact Bool.noConfusion hs2
        · intro hch
          rw [hD] at hch
          exact absurd hlook hch
      · have hge : MIN_FILESIZE_BYTES ≤ (g.bodyLen : Int) := le_of_not_lt hlt
        have hD : DownloadFile url dir ifn w =
            (true, ledgerPhase url fn (fetchedDir url dir g) ifn w) := by
          rw [hD0, getPhase, hg]
          simp only [hsf, Bool.false_eq_true, if_false, hlt]
        have hDfn : lookupF (fetchedDir url dir g) fn = some (.bytes g.bodyLen) := by
          rw [fetchedDir, ← hfn, lookupF_setF, if_pos rfl]
        have hL : lookupF (ledgerPhase url fn (fetchedDir url dir g) ifn w) fn =
            some (.bytes g.bodyLen) :=
          lookupF_ledgerPhase_bytes url fn fn (fetchedDir url dir g) ifn w g.bodyLen hDfn
        refine ⟨fun hlt2 => absurd hlt2 hlt, ?_, ?_⟩
        · intro hs2
          rw [hsf] at hs2
          exact Bool.noConfusion hs2
        · intro _
          exact ⟨hge, by rw [hD], by rw [hD]; exact hL⟩

/-- Witness for C3: a 100-byte body against a directory already holding a
large `a.jpg` — the fetch rejects, leaves `a.jpg` as it was, leaves no
`.part` file, and rejects again on re-run. -/
theorem C3_post_transfer_gate_witness :
    (100 : Int) < MIN_FILESIZE_BYTES ∧
    ((DownloadFile "https://h/a.jpg?x" dirWithA (some "index.json") undersizedWorld).1 = false ∧
     lookupF (DownloadFile "https://h/a.jpg?x" dirWithA (some "index.json") undersizedWorld).2
         (deriveFilename "https://h/a.jpg?x" "") =
       lookupF dirWithA (deriveFilename "https://h/a.jpg?x" "") ∧
     (headRejects undersizedWorld.head = false → (false : Bool) = false →
       lookupF (DownloadFile "https://h/a.jpg?x" dirWithA (some "index.json") undersizedWorld).2
         (deriveFilename "https://h/a.jpg?x" "" ++ ".part") = none) ∧
     (DownloadFile "https://h/a.jpg?x"
        (DownloadFile "https://h/a.jpg?x" dirWithA (some "index.json") undersizedWorld).2
        (some "index.json") undersizedWorld).1 = false) :=
  ⟨by decide,
   (C3_post_transfer_gate "https://h/a.jpg?x" dirWithA (some "index.json") undersizedWorld
      { contentDisposition := "", bodyLen := 100 } rfl).1 (by decide)⟩

/-! ## C7: the pre-flight gate -/

/-- C7 counterexample: a HEAD probe that succeeds and declares
`Content-Length: 0` — a declared length below the minimum byte threshold —
does not make the fetch reject immediately: the body is transferred and
the fetch even succeeds. So the claim is false as stated for a declared
length the code parses to `0` (its "unknown" sentinel). -/
theorem C7_counterexample :
    zeroLenWorld.head = some { ok := true, contentLength := some "0" } ∧
    ContentLength (some "0") = 0 ∧
    (0 : Int) < MIN_FILESIZE_BYTES ∧
    (DownloadFile "https://h/x.jpg" [] none zeroLenWorld).1 = true :=
  ⟨rfl, by decide, by decide, by decide⟩

/-- C7 (amended): if the HEAD probe succeeds and declares a content length
that parses to a *nonzero* value below the minimum byte threshold, the
fetch rejects immediately with the directory untouched (no body
transfer); and if the probe raises, the fetch proceeds to the full GET
transfer. -/
theorem C7_preflight_gate (url : String) (dir : Dir) (ifn : Option String) (w : DlWorld) :
    (∀ h, w.head = some h → h.ok = true → ContentLength h.contentLength ≠ 0 →
        ContentLength h.contentLength < MIN_FILESIZE_BYTES →
        DownloadFile url dir ifn w = (false, dir)) ∧
    (w.head = none → DownloadFile url dir ifn w = getPhase url dir ifn w) := by
  constructor
  · intro h hh hok hne hlt
    have hrej : headRejects w.head = true := by
      rw [hh, headRejects]
      simp only [hok, Bool.true_and, Bool.and_eq_true, bne_iff_ne, decide_eq_true_eq]
      exact ⟨hne, hlt⟩
    rw [DownloadFile, if_pos hrej]
  · intro hh
    have hrej : ¬ headRejects w.head = true := by
      rw [hh, headRejects]
      exact Bool.false_ne_true
    rw [DownloadFile, if_neg hrej]

/-- Witness for C7's amended theorem: a probe declaring 1000 bytes makes
the fetch reject with the directory untouched, and a raising probe makes
the fetch proceed to the GET phase. -/
theorem C7_preflight_gate_witness :
    (smallHeadWorld.head = some { ok := true, contentLength := some "1000" } ∧
     ContentLength (some "1000") ≠ 0 ∧
     ContentLength (some "1000") < MIN_FILESIZE_BYTES ∧
     DownloadFile "https://h/x.jpg" [] none smallHeadWorld = (false, []) ∧
     bigBodyWorld.head = none ∧
     DownloadFile "https://h/x.jpg" [] none bigBodyWorld =
       getPhase "https://h/x.jpg" [] none bigBodyWorld) :=
  ⟨rfl, by decide, by decide,
   (C7_preflight_gate "https://h/x.jpg" [] none smallHeadWorld).1
     { ok := true, contentLength := some "1000" } rfl rfl (by decide) (by decide),
   rfl,
   (C7_preflight_gate "https://h/x.jpg" [] none bigBodyWorld).2 rfl⟩

/-! ## C10: ledger head insertion and swallowed ledger I/O errors -/

/-- C10: on an accepted download, when the ledger read-modify-write I/O
succeeds and the existing ledger parses, the new provenance entry
(derived filename, UTC timestamp, source URL) is inserted at the head of
the ledger file; and when the ledger I/O fails, the directory is exactly
the fetched state (the update is swallowed) and the fetch still reports
success. -/
theorem C10_ledger_head_insert (url : String) (dir : Dir) (f : String) (w : DlWorld)
    (g : GetResp) (hg : w.get = some g) (hh : headRejects w.head = false)
    (hs : g.streamFails = false) (hbig : MIN_FILESIZE_BYTES ≤ (g.bodyLen : Int)) :
    (DownloadFile url dir (some f) w).1 = true ∧
    (∀ old, w.ledgerOk = true → readLedger (fetchedDir url dir g) f = some old →
      lookupF (DownloadFile url dir (some f) w).2 f =
        some (.json ({ filename := deriveFilename url g.contentDisposition,
                       downloaded_at := w.now ++ "Z", url := url } :: old))) ∧
    (w.ledgerOk = false → DownloadFile url dir (some f) w = (true, fetchedDir url dir g)) := by
  have hnrej : ¬ headRejects w.head = true := by
    rw [hh]
    exact Bool.false_ne_true
  have hD : DownloadFile url dir (some f) w =
      (true, ledgerPhase url (deriveFilename url g.contentDisposition)
        (fetchedDir url dir g) (some f) w) := by
    rw [DownloadFile, if_neg hnrej, getPhase, hg]
    simp only [hs, Bool.false_eq_true, if_false, if_neg (not_lt.mpr hbig)]
  refine ⟨by rw [hD], ?_, ?_⟩
  · intro old hok hread
    rw [hD]
    simp only
    rw [ledgerPhase]
    simp only [hok, if_true, hread]
    rw [lookupF_setF, if_pos rfl]
  · intro hnok
    rw [hD, ledgerPhase]
    simp only [hnok, Bool.false_eq_true, if_false]

/-- Witness for C10: downloading 500000 bytes into a directory whose
ledger holds one prior entry puts the new entry at the head. -/
theorem C10_ledger_head_insert_witness :
    bigBodyWorld.get = some { contentDisposition := "", bodyLen := 500000,
                              streamFails := false } ∧
    headRejects bigBodyWorld.head = false ∧
    (DownloadFile "https://h/new.jpg?sig=2" dirWithLedger (some "index.json")
        bigBodyWorld).1 = true ∧
    lookupF (DownloadFile "https://h/new.jpg?sig=2" dirWithLedger (some "index.json")
        bigBodyWorld).2 "index.json" =
      some (.json ({ filename := deriveFilename "https://h/new.jpg?sig=2" "",
                     downloaded_at := "T1" ++ "Z",
                     url := "https://h/new.jpg?sig=2" } :: [oldEntry])) :=
  have T := C10_ledger_head_insert "https://h/new.jpg?sig=2" dirWithLedger "index.json"
    bigBodyWorld { contentDisposition := "", bodyLen := 500000 } rfl (by decide) rfl
    (by decide)
  ⟨rfl, by decide, T.1, T.2.1 [oldEntry] rfl (by decide)⟩

/-! ## C6: the keep-set records URL basenames, and mirroring deletes the rest -/

/-- C6: every name the download loop appends to the round's keep-set is
the URL-derived basename of one of the round's URLs (even when the file
was saved under a Content-Disposition-derived name); and when mirroring
runs with that non-empty keep-set, a regular file survives the reconciler
exactly when its name is one of those URL-derived basenames — everything
else, the ledger file and disposition-named files included, is deleted. -/
theorem C6_mirror_deletes_nonbasenames (world : String → DlWorld) (ifn : Option String)
    (urls : List String) (dir0 dir1 : Dir) (names : List String)
    (hrun : syncDownloadPhase world ifn urls (dir0, []) = (dir1, names))
    (hne : names ≠ []) :
    (∀ n ∈ names, ∃ u ∈ urls, n = urlBasename u) ∧
    (∀ dirM : Dir, ∀ e ∈ dirM, e.2.isFileC = true →
      (e ∈ syncMirrorStep true dirM names ↔ e.1 ∈ names)) := by
  constructor
  · intro n hn
    have hmem : n ∈ (syncDownloadPhase world ifn urls (dir0, [])).2 := by
      rw [hrun]
      exact hn
    rcases syncDownloadPhase_names world ifn urls (dir0, []) n hmem with h | h
    · exact absurd h (List.not_mem_nil n)
    · exact h
  · intro dirM e he hf
    have hnotempty : names.isEmpty = false := by
      cases names with
      | nil => exact absurd rfl hne
      | cons a as => rfl
    rw [syncMirrorStep, if_pos rfl, hnotempty]
    simp only [Bool.false_eq_true, if_false, MirrorMissingFiles]
    constructor
    · intro hmem
      have hpred := (List.mem_filter.mp hmem).2
      simp only [hf, Bool.not_true, Bool.or_false, List.contains_eq_any_beq] at hpred
      rw [List.any_eq_true] at hpred
      obtain ⟨a, ha, hbeq⟩ := hpred
      rw [beq_iff_eq] at hbeq
      rw [hbeq]
      exact ha
    · intro hmem
      refine List.mem_filter.mpr ⟨he, ?_⟩
      have : names.contains e.1 = true := by
        rw [List.contains_eq_any_beq, List.any_eq_true]
        exact ⟨e.1, hmem, by simp⟩
      rw [this]
      rfl

/-- Witness for C6: one URL whose response names the file `other.heic` via
Content-Disposition. The keep-set records `a.jpg` (the URL basename), and
the reconciler then deletes both `other.heic` (the actually-written file)
and `index.json` (the ledger). -/
theorem C6_mirror_deletes_nonbasenames_witness :
    syncDownloadPhase dispWorldFun (some "index.json") ["https://h/a.jpg?tok=1"]
        (dirIdxOnly, []) = (dirAfterDisp, ["a.jpg"]) ∧
    (["a.jpg"] : List String) ≠ [] ∧
    (∀ n ∈ ["a.jpg"], ∃ u ∈ ["https://h/a.jpg?tok=1"], n = urlBasename u) ∧
    ("other.heic", FileContent.bytes 400000) ∈ dirAfterDisp ∧
    ("other.heic", FileContent.bytes 400000) ∉ syncMirrorStep true dirAfterDisp ["a.jpg"] ∧
    ("index.json", FileContent.json [dispEntry]) ∈ dirAfterDisp ∧
    ("index.json", FileContent.json [dispEntry]) ∉ syncMirrorStep true dirAfterDisp ["a.jpg"] :=
  have hrun : syncDownloadPhase dispWorldFun (some "index.json") ["https://h/a.jpg?tok=1"]
      (dirIdxOnly, []) = (dirAfterDisp, ["a.jpg"]) := by decide
  have hne : (["a.jpg"] : List String) ≠ [] := by decide
  have T := C6_mirror_deletes_nonbasenames dispWorldFun (some "index.json")
    ["https://h/a.jpg?tok=1"] dirIdxOnly dirAfterDisp ["a.jpg"] hrun hne
  ⟨hrun, hne, T.1,
   by decide,
   fun hm => absurd
     ((T.2 dirAfterDisp ("other.heic", FileContent.bytes 400000) (by decide) (by decide)).mp hm)
     (by decide),
   by decide,
   fun hm => absurd
     ((T.2 dirAfterDisp ("index.json", FileContent.json [dispEntry]) (by decide) (by decide)).mp hm)
     (by decide)⟩
